import Mathlib

/-!
Verification of the megpost HTTP-response deduplicator (`src/main.go`)
against its specification.

The Go program walks a directory of captured HTTP response transcripts,
derives a structural fingerprint for every file, groups files by
fingerprint, and deletes all but the first-visited file of each group.

This file contains a shallow embedding of the program: file contents are
modelled as `List Char`, the walk as a list of `(path, file)` pairs, the
Go `map[string][]string` accumulator as an association list that preserves
per-key insertion order, and `os.Remove` as a success oracle
`String → Bool` supplied by the environment.
-/

namespace Megpost

/-- The `FileMetrics` struct of `main.go`, field for field.  Numeric fields
that Go stores as `string` (the `strconv.Itoa` results) stay `String`;
`Words`, `Length`, `Lines` are Go `int`s that the program only ever
increments from zero, so they are modelled as `Nat`. -/
structure FileMetrics where
  Status : String
  Length : Nat
  Words : Nat
  Lines : Nat
  ContentType : String
  RedirectLocation : String
  Resultfile : String
  Url : String
  Host : String
  CountHeaders : String
  RedirectDomain : String
  CountRedirectParameters : String
  LengthTitle : String
  WordsTitle : String
  CountCssFiles : String
  CountJsFiles : String
  CountTags : String
  KeepReason : String
  IsInteresting : Bool
  deriving DecidableEq, Repr

/-- The zero value of the Go struct (`var metrics FileMetrics`). -/
def emptyMetrics : FileMetrics :=
  { Status := "", Length := 0, Words := 0, Lines := 0, ContentType := "",
    RedirectLocation := "", Resultfile := "", Url := "", Host := "",
    CountHeaders := "", RedirectDomain := "", CountRedirectParameters := "",
    LengthTitle := "", WordsTitle := "", CountCssFiles := "",
    CountJsFiles := "", CountTags := "", KeepReason := "",
    IsInteresting := false }

/-- Model of `fmt.Sprintf("%t", b)`. -/
def boolStr (b : Bool) : String := if b then "true" else "false"

/-- Model of `keyForMetrics` of `main.go`: the `fmt.Sprintf` with verb string
`"%s-%d-%s-%s-%s-%s-%s-%s-%s-%s-%s-%s-%t"` applied to the thirteen listed
fields (`%d` on a non-negative Go `int` prints its decimal digits, i.e.
`Nat.repr`). -/
def keyForMetrics (m : FileMetrics) : String :=
  m.Status ++ "-" ++ Nat.repr m.Words ++ "-" ++ m.ContentType ++ "-" ++
  m.RedirectLocation ++ "-" ++ m.CountHeaders ++ "-" ++ m.RedirectDomain ++ "-" ++
  m.CountRedirectParameters ++ "-" ++ m.LengthTitle ++ "-" ++ m.WordsTitle ++ "-" ++
  m.CountCssFiles ++ "-" ++ m.CountJsFiles ++ "-" ++ m.CountTags ++ "-" ++
  boolStr m.IsInteresting

/-- The ordered tuple of the thirteen `FileMetrics` fields that
`keyForMetrics` consumes, in the order they appear in the format string. -/
def keyFields (m : FileMetrics) :
    String × Nat × String × String × String × String × String × String ×
    String × String × String × String × Bool :=
  (m.Status, m.Words, m.ContentType, m.RedirectLocation, m.CountHeaders,
   m.RedirectDomain, m.CountRedirectParameters, m.LengthTitle, m.WordsTitle,
   m.CountCssFiles, m.CountJsFiles, m.CountTags, m.IsInteresting)

/-- A string that contains no `'-'` separator character. -/
def noDash (s : String) : Bool := !(s.data.contains '-')

/-- The eleven `String`-typed fields consumed by `keyForMetrics` are all
free of the `'-'` separator. -/
def dashFreeKeyFields (m : FileMetrics) : Bool :=
  noDash m.Status && noDash m.ContentType && noDash m.RedirectLocation &&
  noDash m.CountHeaders && noDash m.RedirectDomain &&
  noDash m.CountRedirectParameters && noDash m.LengthTitle &&
  noDash m.WordsTitle && noDash m.CountCssFiles && noDash m.CountJsFiles &&
  noDash m.CountTags

/-! ### Decimal representation facts used by the fingerprint analysis -/

theorem digitChar_ne_dash (m : Nat) : Nat.digitChar m ≠ '-' := by
  by_cases h : m < 16
  · interval_cases m <;> decide
  · have hstar : Nat.digitChar m = Char.ofNat 42 := by
      simp only [Nat.digitChar]
      repeat rw [if_neg (by omega)]
    rw [hstar]
    decide

theorem toDigitsCore_ne_dash :
    ∀ (f n : Nat) (ds : List Char), (∀ c ∈ ds, c ≠ '-') →
      ∀ c ∈ Nat.toDigitsCore 10 f n ds, c ≠ '-' := by
  intro f
  induction f with
  | zero => intro n ds hds c hc; exact hds c hc
  | succ f ih =>
    intro n ds hds c hc
    simp only [Nat.toDigitsCore] at hc
    split at hc
    · rcases List.mem_cons.mp hc with h | h
      · subst h; exact digitChar_ne_dash _
      · exact hds c h
    · refine ih _ _ ?_ c hc
      intro c' hc'
      rcases List.mem_cons.mp hc' with h | h
      · subst h; exact digitChar_ne_dash _
      · exact hds c' h

theorem noDash_repr (n : Nat) : noDash (Nat.repr n) = true := by
  have h := toDigitsCore_ne_dash (n + 1) n [] (by intro c hc; cases hc)
  simp only [noDash, Nat.repr, Nat.toDigits, List.asString]
  rw [Bool.not_eq_true', ← Bool.not_eq_true]
  intro hmem
  exact h '-' (List.mem_of_elem_eq_true hmem) rfl

theorem noDash_boolStr (b : Bool) : noDash (boolStr b) = true := by
  cases b <;> decide

/-- Fuel does not matter for `Nat.toDigitsCore` as long as it exceeds the
number being printed. -/
theorem toDigitsCore_fuel (n : Nat) :
    ∀ (f f' : Nat) (ds : List Char), n < f → n < f' →
      Nat.toDigitsCore 10 f n ds = Nat.toDigitsCore 10 f' n ds := by
  induction n using Nat.strong_induction_on with
  | _ n ih =>
    intro f f' ds hf hf'
    match f, f' with
    | f + 1, f' + 1 =>
      simp only [Nat.toDigitsCore]
      split
      · rfl
      · rename_i hne
        have hlt : n / 10 < n := Nat.div_lt_self (Nat.pos_of_ne_zero (by
          intro h0; subst h0; simp at hne)) (by norm_num)
        exact ih (n / 10) hlt f f'
          _ (Nat.lt_of_lt_of_le hlt (Nat.lt_succ_iff.mp hf))
          (Nat.lt_of_lt_of_le hlt (Nat.lt_succ_iff.mp hf'))

/-- The accumulator of `Nat.toDigitsCore` is simply appended to the digits. -/
theorem toDigitsCore_append (n : Nat) :
    ∀ (f : Nat) (ds : List Char), n < f →
      Nat.toDigitsCore 10 f n ds = Nat.toDigitsCore 10 f n [] ++ ds := by
  induction n using Nat.strong_induction_on with
  | _ n ih =>
    intro f ds hf
    match f with
    | f + 1 =>
      simp only [Nat.toDigitsCore]
      split
      · simp
      · rename_i hne
        have hlt : n / 10 < n := Nat.div_lt_self (Nat.pos_of_ne_zero (by
          intro h0; subst h0; simp at hne)) (by norm_num)
        have hfuel : n / 10 < f := Nat.lt_of_lt_of_le hlt (Nat.lt_succ_iff.mp hf)
        rw [ih (n / 10) hlt f _ hfuel, ih (n / 10) hlt f [Nat.digitChar (n % 10)] hfuel,
          List.append_assoc]
        rfl

/-- Numeric value of a decimal digit character. -/
def digitVal (c : Char) : Nat := c.toNat - '0'.toNat

/-- Read a digit string back into a number. -/
def decVal (cs : List Char) : Nat := cs.foldl (fun a c => a * 10 + digitVal c) 0

theorem digitVal_digitChar (m : Nat) (h : m < 10) :
    digitVal (Nat.digitChar m) = m := by
  interval_cases m <;> decide

theorem decVal_toDigitsCore (n : Nat) :
    ∀ f : Nat, n < f → decVal (Nat.toDigitsCore 10 f n []) = n := by
  induction n using Nat.strong_induction_on with
  | _ n ih =>
    intro f hf
    match f with
    | f + 1 =>
      simp only [Nat.toDigitsCore]
      split
      · rename_i hz
        have hlt10 : n < 10 := (Nat.div_eq_zero_iff (by norm_num)).mp hz
        have h10 : n % 10 = n := Nat.mod_eq_of_lt hlt10
        simp [decVal, h10, digitVal_digitChar n hlt10]
      · rename_i hne
        have hlt : n / 10 < n := Nat.div_lt_self (Nat.pos_of_ne_zero (by
          intro h0; subst h0; simp at hne)) (by norm_num)
        have hfuel : n / 10 < f := Nat.lt_of_lt_of_le hlt (Nat.lt_succ_iff.mp hf)
        rw [toDigitsCore_append (n / 10) f [Nat.digitChar (n % 10)] hfuel]
        simp only [decVal, List.foldl_append]
        have := ih (n / 10) hlt f hfuel
        simp only [decVal] at this
        rw [this]
        simp [digitVal_digitChar (n % 10) (Nat.mod_lt _ (by norm_num))]
        omega

theorem repr_inj (n m : Nat) (h : Nat.repr n = Nat.repr m) : n = m := by
  have hdata : (Nat.toDigits 10 n) = (Nat.toDigits 10 m) := by
    have := congrArg String.data h
    simpa [Nat.repr, List.asString] using this
  have hn := decVal_toDigitsCore n (n + 1) (Nat.lt_succ_self n)
  have hm := decVal_toDigitsCore m (m + 1) (Nat.lt_succ_self m)
  simp only [Nat.toDigits] at hdata
  rw [← hn, ← hm, hdata]

/-! ### Injectivity of the dash-separated key on dash-free components -/

theorem dash_split (a : List Char) :
    ∀ (b r1 r2 : List Char), '-' ∉ a → '-' ∉ b →
      a ++ '-' :: r1 = b ++ '-' :: r2 → a = b ∧ r1 = r2 := by
  induction a with
  | nil =>
    intro b r1 r2 _ hb heq
    cases b with
    | nil => simpa using heq
    | cons c cs =>
      simp only [List.nil_append, List.cons_append, List.cons.injEq] at heq
      exact absurd (heq.1 ▸ List.mem_cons_self c cs) hb
  | cons c cs ih =>
    intro b r1 r2 ha hb heq
    cases b with
    | nil =>
      simp only [List.cons_append, List.nil_append, List.cons.injEq] at heq
      exact absurd (heq.1 ▸ List.mem_cons_self c cs) ha
    | cons d ds =>
      simp only [List.cons_append, List.cons.injEq] at heq
      obtain ⟨hcd, hrest⟩ := heq
      have ha' : '-' ∉ cs := fun h => ha (List.mem_cons_of_mem c h)
      have hb' : '-' ∉ ds := fun h => hb (List.mem_cons_of_mem d h)
      obtain ⟨h1, h2⟩ := ih ds r1 r2 ha' hb' hrest
      exact ⟨by rw [hcd, h1], h2⟩

theorem noDash_not_mem {s : String} (h : noDash s = true) : '-' ∉ s.data := by
  simp only [noDash, Bool.not_eq_true', ← Bool.not_eq_true] at h
  intro hmem
  exact h (List.elem_iff.mpr hmem)

/-- One step of peeling the dash-separated key apart. -/
theorem dash_split_str {a b : String} {r1 r2 : List Char}
    (ha : noDash a = true) (hb : noDash b = true)
    (heq : a.data ++ '-' :: r1 = b.data ++ '-' :: r2) : a = b ∧ r1 = r2 := by
  obtain ⟨h1, h2⟩ := dash_split a.data b.data r1 r2 (noDash_not_mem ha) (noDash_not_mem hb) heq
  exact ⟨String.ext h1, h2⟩

/-- The character list underlying `keyForMetrics`, fully right-associated. -/
theorem keyForMetrics_data (m : FileMetrics) :
    (keyForMetrics m).data =
      m.Status.data ++ '-' :: ((Nat.repr m.Words).data ++ '-' ::
      (m.ContentType.data ++ '-' :: (m.RedirectLocation.data ++ '-' ::
      (m.CountHeaders.data ++ '-' :: (m.RedirectDomain.data ++ '-' ::
      (m.CountRedirectParameters.data ++ '-' :: (m.LengthTitle.data ++ '-' ::
      (m.WordsTitle.data ++ '-' :: (m.CountCssFiles.data ++ '-' ::
      (m.CountJsFiles.data ++ '-' :: (m.CountTags.data ++ '-' ::
      (boolStr m.IsInteresting).data))))))))))) := by
  simp [keyForMetrics, String.data_append]

theorem boolStr_inj (a b : Bool) (h : boolStr a = boolStr b) : a = b := by
  cases a <;> cases b <;> first | rfl | exact absurd h (by decide)

/-- The key builder is injective on the thirteen fields it consumes, as long
as the string-typed fields contain no `'-'` separator character. -/
theorem keyForMetrics_injOn (m1 m2 : FileMetrics)
    (h1 : dashFreeKeyFields m1 = true) (h2 : dashFreeKeyFields m2 = true)
    (hk : keyForMetrics m1 = keyForMetrics m2) : keyFields m1 = keyFields m2 := by
  simp only [dashFreeKeyFields, Bool.and_eq_true] at h1 h2
  obtain ⟨⟨⟨⟨⟨⟨⟨⟨⟨⟨a1, a2⟩, a3⟩, a4⟩, a5⟩, a6⟩, a7⟩, a8⟩, a9⟩, a10⟩, a11⟩ := h1
  obtain ⟨⟨⟨⟨⟨⟨⟨⟨⟨⟨b1, b2⟩, b3⟩, b4⟩, b5⟩, b6⟩, b7⟩, b8⟩, b9⟩, b10⟩, b11⟩ := h2
  have hdata := congrArg String.data hk
  rw [keyForMetrics_data, keyForMetrics_data] at hdata
  obtain ⟨e1, hdata⟩ := dash_split_str a1 b1 hdata
  obtain ⟨e2, hdata⟩ := dash_split_str (noDash_repr m1.Words) (noDash_repr m2.Words) hdata
  obtain ⟨e3, hdata⟩ := dash_split_str a2 b2 hdata
  obtain ⟨e4, hdata⟩ := dash_split_str a3 b3 hdata
  obtain ⟨e5, hdata⟩ := dash_split_str a4 b4 hdata
  obtain ⟨e6, hdata⟩ := dash_split_str a5 b5 hdata
  obtain ⟨e7, hdata⟩ := dash_split_str a6 b6 hdata
  obtain ⟨e8, hdata⟩ := dash_split_str a7 b7 hdata
  obtain ⟨e9, hdata⟩ := dash_split_str a8 b8 hdata
  obtain ⟨e10, hdata⟩ := dash_split_str a9 b9 hdata
  obtain ⟨e11, hdata⟩ := dash_split_str a10 b10 hdata
  obtain ⟨e12, hdata⟩ := dash_split_str a11 b11 hdata
  have e13 : m1.IsInteresting = m2.IsInteresting :=
    boolStr_inj _ _ (String.ext hdata)
  have ew : m1.Words = m2.Words := repr_inj _ _ e2
  simp only [keyFields, Prod.mk.injEq]
  exact ⟨e1, ew, e3, e4, e5, e6, e7, e8, e9, e10, e11, e12, e13⟩

/-! ### The grouping accumulator (`groupedFiles map[string][]string`)

`groupedFiles[key] = append(groupedFiles[key], path)` appends `path` to the
per-key slice.  A Go map is modelled as an association list keyed by the
fingerprint string; per-key insertion order is preserved exactly as the
slice `append` preserves it. -/

/-- The slice stored under `key` (`groupedFiles[key]`; a missing key holds
the empty slice). -/
def groupAt : List (String × List String) → String → List String
  | [], _ => []
  | (k, ps) :: rest, key => if k = key then ps else groupAt rest key

/-- Model of `groupedFiles[key] = append(groupedFiles[key], path)`. -/
def addToGroups (gs : List (String × List String)) (key path : String) :
    List (String × List String) :=
  match gs with
  | [] => [(key, [path])]
  | (k, ps) :: rest =>
    if k = key then (k, ps ++ [path]) :: rest
    else (k, ps) :: addToGroups rest key path

theorem groupAt_addToGroups_self (gs : List (String × List String))
    (key path : String) : path ∈ groupAt (addToGroups gs key path) key := by
  induction gs with
  | nil => simp [addToGroups, groupAt]
  | cons e rest ih =>
    obtain ⟨k, ps⟩ := e
    by_cases hk : k = key
    · simp [addToGroups, groupAt, hk]
    · simp only [addToGroups, if_neg hk, groupAt]
      exact ih

theorem groupAt_addToGroups_mono (gs : List (String × List String))
    (key path k q : String) (h : q ∈ groupAt gs k) :
    q ∈ groupAt (addToGroups gs key path) k := by
  induction gs with
  | nil => simp [groupAt] at h
  | cons e rest ih =>
    obtain ⟨k', ps⟩ := e
    by_cases hk : k' = key
    · subst hk
      simp only [addToGroups, if_pos rfl, groupAt] at h ⊢
      by_cases hkk : k' = k
      · rw [if_pos hkk] at h ⊢
        exact List.mem_append_left _ h
      · rw [if_neg hkk] at h ⊢
        exact h
    · simp only [addToGroups, if_neg hk, groupAt] at h ⊢
      by_cases hkk : k' = k
      · rwa [if_pos hkk] at h ⊢
      · rw [if_neg hkk] at h ⊢
        exact ih h

/-- Members of any group after an insertion: either they were already in
that group, or they are the path just inserted. -/
theorem groupAt_addToGroups_cases (gs : List (String × List String))
    (key path k q : String) (h : q ∈ groupAt (addToGroups gs key path) k) :
    q ∈ groupAt gs k ∨ q = path := by
  induction gs with
  | nil =>
    simp only [addToGroups, groupAt] at h
    by_cases hk : key = k
    · rw [if_pos hk] at h
      right; simpa using h
    · rw [if_neg hk] at h
      simp at h
  | cons e rest ih =>
    obtain ⟨k', ps⟩ := e
    by_cases hk : k' = key
    · subst hk
      simp only [addToGroups, if_pos rfl, groupAt] at h ⊢
      by_cases hkk : k' = k
      · rw [if_pos hkk] at h ⊢
        rcases List.mem_append.mp h with h | h
        · exact Or.inl h
        · right; simpa using h
      · rw [if_neg hkk] at h ⊢
        exact Or.inl h
    · simp only [addToGroups, if_neg hk, groupAt] at h ⊢
      by_cases hkk : k' = k
      · rw [if_pos hkk] at h ⊢
        exact Or.inl h
      · rw [if_neg hkk] at h ⊢
        exact ih h

/-! ### Transcript Splitter (`SeperateContentIntoHeadersAndBody`) -/

/-- The boundary scan of `SeperateContentIntoHeadersAndBody`: walk the
content with the previously seen character (`prev`, initially the zero
rune of `var prev rune`); at the first position whose previous character is
`'\n'` and whose current character is `'<'`, return the suffix starting
there (`Content[i:]`). -/
def findStart (prev : Char) : List Char → Option (List Char)
  | [] => none
  | c :: rest =>
    if prev = '\n' && c = '<' then some (c :: rest) else findStart c rest

/-- Does `pat` occur at the very start of `cs`? (`strings.HasPrefix`). -/
def hasPfx : List Char → List Char → Bool
  | [], _ => true
  | _ :: _, [] => false
  | p :: ps, c :: cs => p = c && hasPfx ps cs

/-- Model of `strings.Contains` on character lists. -/
def containsSub (cs pat : List Char) : Bool :=
  match cs with
  | [] => pat.isEmpty
  | _ :: rest => hasPfx pat cs || containsSub rest pat

/-- Model of `dropCR` of `bufio.ScanLines`: drop one trailing `'\r'`. -/
def dropCR (l : List Char) : List Char :=
  match l.getLast? with
  | some c => if c = '\r' then l.dropLast else l
  | none => l

/-- Model of `bufio.Scanner` with `bufio.ScanLines`: the sequence of lines produced
by repeated `Scan` calls.  A line is terminated by `'\n'` (not part of the
line, trailing `'\r'` dropped); a final unterminated chunk is its own line;
at end of input no further (empty) line is produced. -/
def scanLinesAux : List Char → List Char → List (List Char)
  | acc, [] => if acc.isEmpty then [] else [dropCR acc.reverse]
  | acc, c :: rest =>
    if c = '\n' then dropCR acc.reverse :: scanLinesAux [] rest
    else scanLinesAux (c :: acc) rest

def scanLines (cs : List Char) : List (List Char) := scanLinesAux [] cs

/-- Model of `strings.Replace(line, "< ", "", 1)`: remove the first occurrence of
`"< "` anywhere in the line (the line is unchanged when there is none). -/
def replaceFirst (pat : List Char) : List Char → List Char
  | [] => []
  | c :: rest =>
    if hasPfx pat (c :: rest) then (c :: rest).drop pat.length
    else c :: replaceFirst pat rest

def stripMarker (line : List Char) : List Char := replaceFirst ['<', ' '] line

/-- The ASCII fragment of Go's `unicode.IsSpace` (plus NEL and NBSP, the
two Latin-1 cases); `strings.TrimSpace` and `bufio.ScanWords` use it. -/
def goIsSpace (c : Char) : Bool :=
  c = ' ' || c = '\t' || c = '\n' || (c = Char.ofNat 11) || (c = Char.ofNat 12) ||
  c = '\r' || (c = Char.ofNat 0x85) || (c = Char.ofNat 0xa0)

/-- Model of `strings.TrimSpace`. -/
def trimSpace (cs : List Char) : List Char :=
  (((cs.dropWhile goIsSpace).reverse).dropWhile goIsSpace).reverse

/-- The header/body accumulation loop of the splitter: header lines (with
the `strings.Replace` marker removal applied) are gathered until the first
blank line, which is consumed; every later line goes to the body.  Each
appended line is followed by `'\n'` (`WriteByte('\n')`). -/
def buildHB (inHeaders : Bool) (hAcc bAcc : List Char) :
    List (List Char) → List Char × List Char
  | [] => (hAcc, bAcc)
  | line :: rest =>
    if inHeaders then
      if line.isEmpty then buildHB false hAcc bAcc rest
      else buildHB true (hAcc ++ stripMarker line ++ ['\n']) bAcc rest
    else buildHB inHeaders hAcc (bAcc ++ line ++ ['\n']) rest

/-- Model of `SeperateContentIntoHeadersAndBody` of `main.go`. -/
def SeperateContentIntoHeadersAndBody (Content : String) : String × String :=
  let EntireResponse : List Char :=
    match findStart (Char.ofNat 0) Content.data with
    | some r => r
    | none => []
  let hb := buildHB true [] [] (scanLines EntireResponse)
  (⟨trimSpace hb.1⟩, ⟨trimSpace hb.2⟩)

/-! ### Metric extractors

Each Go regular expression of `main.go` is modelled by a direct scanning
function with the same matching semantics (leftmost-first, `.` not
matching `'\n'`, `\s` being RE2's `[\t\n\f\r ]`). -/

/-- Case-insensitive `hasPfx`, for the `(?i)` patterns. -/
def hasPfxCI : List Char → List Char → Bool
  | [], _ => true
  | _ :: _, [] => false
  | p :: ps, c :: cs => (p.toLower = c.toLower) && hasPfxCI ps cs

/-- Case-insensitive substring containment. -/
def containsSubCI (cs pat : List Char) : Bool :=
  match cs with
  | [] => pat.isEmpty
  | _ :: rest => hasPfxCI pat cs || containsSubCI rest pat

/-- Find the first occurrence of `pat` and return the remainder just after
it, or `none`. -/
def findSub : List Char → List Char → Option (List Char)
  | [], pat => if pat.isEmpty then some [] else none
  | c :: rest, pat =>
    if hasPfx pat (c :: rest) then some ((c :: rest).drop pat.length)
    else findSub rest pat

/-- RE2's `\s` character class `[\t\n\f\r ]`. -/
def isPerlSpace (c : Char) : Bool :=
  c = '\t' || c = '\n' || (c = Char.ofNat 12) || c = '\r' || c = ' '

/-- The rest of the current line: what a greedy `(.*)` captures (`.` stops
at `'\n'`). -/
def lineRemainder (cs : List Char) : List Char :=
  cs.takeWhile (fun c => c ≠ '\n')

/-- Model of `GetContentType`: capture group of `"Content-Type: (.*)"` at its first
occurrence, else `""`. -/
def GetContentType (headers : String) : String :=
  match findSub headers.data ("Content-Type: ".data) with
  | some rest => ⟨lineRemainder rest⟩
  | none => ""

/-- Model of `GetRedirectLocation`: capture group of `"Location: (.*)"` at its first
occurrence, else `""`. -/
def GetRedirectLocation (headers : String) : String :=
  match findSub headers.data ("Location: ".data) with
  | some rest => ⟨lineRemainder rest⟩
  | none => ""

/-- Attempt `\s+(\d+)\s+` exactly at the start of `cs`; return the digits
captured by `(\d+)`. -/
def wsDigitsWs (cs : List Char) : Option (List Char) :=
  if (cs.takeWhile isPerlSpace).isEmpty then none
  else
    let rest1 := cs.dropWhile isPerlSpace
    let digs := rest1.takeWhile Char.isDigit
    if digs.isEmpty then none
    else
      match rest1.dropWhile Char.isDigit with
      | c :: _ => if isPerlSpace c then some digs else none
      | [] => none

/-- Model of `.*?\s+(\d+)\s+`: grow the non-greedy dot-star one character at a time
(`.` cannot cross `'\n'`, though the `\s+` may contain one). -/
def statusTail : List Char → Option (List Char)
  | [] => none
  | c :: rest =>
    match wsDigitsWs (c :: rest) with
    | some d => some d
    | none => if c = '\n' then none else statusTail rest

/-- Model of `GetStatus`: capture group of `"HTTP/.*?\s+(\d+)\s+"` at the leftmost
position where the whole pattern matches, else `""`. -/
def statusSearch : List Char → Option (List Char)
  | [] => none
  | c :: rest =>
    if hasPfx ("HTTP/".data) (c :: rest) then
      match statusTail ((c :: rest).drop 5) with
      | some d => some d
      | none => statusSearch rest
    else statusSearch rest

def GetStatus (headers : String) : String :=
  match statusSearch headers.data with
  | some d => ⟨d⟩
  | none => ""

/-- Model of `(?mi)<title>(.*?)</title>` body scan: collect the non-greedy capture
until the closing tag; `'\n'` cannot be part of the capture. -/
def titleScan : List Char → List Char → Option (List Char)
  | [], _ => none
  | c :: rest, acc =>
    if hasPfxCI ("</title>".data) (c :: rest) then some acc.reverse
    else if c = '\n' then none
    else titleScan rest (c :: acc)

def titleCapture : List Char → Option (List Char)
  | [] => none
  | c :: rest =>
    if hasPfxCI ("<title>".data) (c :: rest) then
      match titleScan ((c :: rest).drop 7) [] with
      | some cap => some cap
      | none => titleCapture rest
    else titleCapture rest

/-- Model of `CalculateTitleLength` (`len` of the capture; byte length and character
length agree on ASCII titles, the model uses character length). -/
def CalculateTitleLength (body : String) : String :=
  match titleCapture body.data with
  | some cap => Nat.repr cap.length
  | none => "0"

/-- Word counting state machine shared by `strings.Fields` and
`bufio.ScanWords`: number of maximal runs of non-space characters. -/
def countWordsAux : Bool → List Char → Nat
  | _, [] => 0
  | inw, c :: rest =>
    if goIsSpace c then countWordsAux false rest
    else (if inw then 0 else 1) + countWordsAux true rest

def countWords (cs : List Char) : Nat := countWordsAux false cs

/-- Model of `CalculateTitleWords`: `len(strings.Fields(matches[1]))`. -/
def CalculateTitleWords (body : String) : String :=
  match titleCapture body.data with
  | some cap => Nat.repr (countWords cap)
  | none => "0"

/-- Count non-overlapping occurrences of `pat` followed by `(\?|)` (an
optional `'?'` that the match consumes).  Fuel-indexed for structural
recursion; one character is consumed per unit of fuel at least, so
`cs.length` fuel is enough. -/
def countPatQ (pat : List Char) : Nat → List Char → Nat
  | 0, _ => 0
  | _ + 1, [] => 0
  | fuel + 1, c :: rest =>
    if hasPfx pat (c :: rest) then
      let after := (c :: rest).drop pat.length
      let after2 :=
        match after with
        | q :: r => if q = '?' then r else after
        | [] => after
      1 + countPatQ pat fuel after2
    else countPatQ pat fuel rest

/-- Model of `CountCssFiles`: number of matches of `\.css(\?|)` in `body`. -/
def CountCssFiles (body : String) : String :=
  Nat.repr (countPatQ (".css".data) body.data.length body.data)

/-- Model of `CountJsFiles`: number of matches of `\.js(\?|)` in `body`. -/
def CountJsFiles (body : String) : String :=
  Nat.repr (countPatQ (".js".data) body.data.length body.data)

/-- Split on a separator character, keeping empty segments. -/
def splitOnChar (sep : Char) : List Char → List (List Char)
  | [] => [[]]
  | c :: rest =>
    if c = sep then [] :: splitOnChar sep rest
    else
      match splitOnChar sep rest with
      | [] => [[c]]
      | l :: ls => (c :: l) :: ls

/-- Model of `CountHeaders`: `headerRegex = "(.*):(.*)"` matched with `FindAllString`
finds exactly one match per newline-separated segment that contains a
`':'` (the greedy dot-stars extend each match to the whole segment). -/
def CountHeaders (headerString : String) : String :=
  Nat.repr (((splitOnChar '\n' headerString.data).filter
    (fun l => l.contains ':')).length)

/-- Model of `tagsRegex = "<(.*?)>"` match counting as a single left-to-right state
machine: after an unmatched `'<'`, a `'>'` before any `'\n'` ends a match;
a `'\n'` kills the pending `'<'` (no match can start before it, because no
`'>'` intervened). -/
def tagScan : Bool → List Char → Nat
  | _, [] => 0
  | false, c :: rest => tagScan (c = '<') rest
  | true, c :: rest =>
    if c = '>' then 1 + tagScan false rest
    else if c = '\n' then tagScan false rest
    else tagScan true rest

def isQuote (c : Char) : Bool := c = '"' || c = Char.ofNat 39

/-- What `jsonRegex = ("|')(\s|):(\s|)("|'|)` consumes after its `':'`: an
optional single `\s`, then an optional closing quote. -/
def afterColon : List Char → List Char
  | [] => []
  | c :: rest =>
    if isPerlSpace c then
      match rest with
      | q :: r => if isQuote q then r else rest
      | [] => []
    else if isQuote c then rest
    else c :: rest

/-- Non-overlapping match count of `jsonRegex`: a quote, an optional single
`\s`, a `':'`, then the optional suffix.  Fuel-indexed (each step consumes
at least one character). -/
def jsonScanF : Nat → List Char → Nat
  | 0, _ => 0
  | _ + 1, [] => 0
  | fuel + 1, c :: cs =>
    if isQuote c then
      match cs with
      | ':' :: r => 1 + jsonScanF fuel (afterColon r)
      | w :: ':' :: r =>
        if isPerlSpace w then 1 + jsonScanF fuel (afterColon r)
        else jsonScanF fuel cs
      | _ => jsonScanF fuel cs
    else jsonScanF fuel cs

def jsonScan (cs : List Char) : Nat := jsonScanF cs.length cs

/-- Model of `CountTags` of `main.go`: `html`/`xml` content types use the
angle-bracket tag count, then `json` content types use the quoted-key
colon count, anything else yields `"0"`. -/
def CountTags (contentType body : String) : String :=
  if containsSub contentType.data ("html".data) ||
     containsSub contentType.data ("xml".data) then
    Nat.repr (tagScan false body.data)
  else if containsSub contentType.data ("json".data) then
    Nat.repr (jsonScan body.data)
  else "0"

/-- Model of `IsInterestingContent`: `(?mi)(PUDAX|DUPA|INJECTX)` found in headers or
body. -/
def IsInterestingContent (headers body : String) : Bool :=
  containsSubCI headers.data ("PUDAX".data) ||
  containsSubCI headers.data ("DUPA".data) ||
  containsSubCI headers.data ("INJECTX".data) ||
  containsSubCI body.data ("PUDAX".data) ||
  containsSubCI body.data ("DUPA".data) ||
  containsSubCI body.data ("INJECTX".data)

/-! ### URL parsing (Go standard library `net/url`, simplified model)

`ExtractRedirectDomain` and `CountRedirectParameters` call `url.Parse` and
`URL.Host` / `URL.Query()`.  The model captures the documented behaviour
needed here: parsing fails on control characters; `Host` is the authority
section (present only after `"//"`); `Query()` maps distinct keys of the
`'&'`-separated query string.  Percent-decoding and some rare authority
forms are not modelled; no claim depends on them. -/

structure GoUrl where
  host : String
  query : List Char
  deriving DecidableEq, Repr

def urlParse (s : List Char) : Option GoUrl :=
  if s.any (fun c => c.toNat < 0x20 || c.toNat = 0x7f) then none
  else
    let noFrag := s.takeWhile (fun c => c ≠ '#')
    let beforeQ := noFrag.takeWhile (fun c => c ≠ '?')
    let query := (noFrag.dropWhile (fun c => c ≠ '?')).drop 1
    let auth :=
      if hasPfx ("//".data) beforeQ then some (beforeQ.drop 2)
      else
        match findSub beforeQ ("://".data) with
        | some r => some r
        | none => none
    match auth with
    | some a => some { host := ⟨a.takeWhile (fun c => c ≠ '/')⟩, query := query }
    | none => some { host := "", query := query }

/-- Key of one `k=v` query component. -/
def queryKey (comp : List Char) : List Char := comp.takeWhile (fun c => c ≠ '=')

/-- Model of `len(url.Values)` for the parsed query: distinct keys of the non-empty
`'&'`-separated components. -/
def countQueryParams (q : List Char) : Nat :=
  (((splitOnChar '&' q).filter (fun c => !c.isEmpty)).map queryKey).dedup.length

/-- Model of `ExtractRedirectDomain` of `main.go`. -/
def ExtractRedirectDomain (urlStr : String) : String :=
  match urlParse urlStr.data with
  | some u => u.host
  | none => ""

/-- Model of `CountRedirectParameters` of `main.go`. -/
def CountRedirectParameters (urlStr : String) : String :=
  match urlParse urlStr.data with
  | some u => Nat.repr (countQueryParams u.query)
  | none => "0"

/-! ### `computeMetrics` -/

/-- The error outcomes `computeMetrics` can propagate. -/
inductive IOErr
  | eof
  | unexpectedEOF
  | openFail
  deriving DecidableEq, Repr

/-- A file as the walk sees it: opening may fail, otherwise it has a byte
content. -/
structure DiskFile where
  openErr : Bool
  content : List Char
  deriving DecidableEq, Repr

/-- The read cap: `content := make([]byte, 1000000)`. -/
def CAP : Nat := 1000000

/-- Model of `n, err := io.ReadFull(file, content); content = content[:n]` for the
1,000,000-byte buffer: a full buffer reads without error, a non-empty
shorter file yields `io.ErrUnexpectedEOF` alongside the whole content, an
empty file yields `io.EOF` and nothing. -/
def readCapped (content : List Char) : List Char × Option IOErr :=
  if CAP ≤ content.length then (content.take CAP, none)
  else if content.length = 0 then ([], some IOErr.eof)
  else (content, some IOErr.unexpectedEOF)

/-- The metric-extraction body of `computeMetrics`, applied to the capped
buffer; the final `bufio.ScanWords` scanner continues reading the file
handle from just after the `buffer.length` bytes already consumed.  (The
trailing `scanner.Err()` check can only fire on a >64KiB word token, which
the model does not track.) -/
def metricsOf (buffer content : List Char) : FileMetrics :=
  let hb := SeperateContentIntoHeadersAndBody ⟨buffer⟩
  let Headers := hb.1
  let Body := hb.2
  let ct := GetContentType Headers
  let rl := GetRedirectLocation Headers
  { emptyMetrics with
    Status := GetStatus Headers
    ContentType := ct
    RedirectLocation := rl
    RedirectDomain := ExtractRedirectDomain rl
    CountRedirectParameters := CountRedirectParameters rl
    IsInteresting := IsInterestingContent Headers Body
    CountHeaders := CountHeaders Headers
    LengthTitle := CalculateTitleLength Body
    WordsTitle := CalculateTitleWords Body
    CountCssFiles := CountCssFiles Body
    CountJsFiles := CountJsFiles Body
    CountTags := CountTags ct Body
    Words := countWords (content.drop buffer.length) }

/-- Model of `computeMetrics` of `main.go`. -/
def computeMetrics (f : DiskFile) : Except IOErr FileMetrics :=
  if f.openErr then Except.error IOErr.openFail
  else
    let rc := readCapped f.content
    match rc.2 with
    | some e =>
      if e = IOErr.unexpectedEOF then Except.ok (metricsOf rc.1 f.content)
      else Except.error e
    | none => Except.ok (metricsOf rc.1 f.content)

/-! ### The walk and the pruning pass of `main` -/

/-- One file of the walk: a failed `computeMetrics` is logged and skipped,
a successful one appends the path under its fingerprint key. -/
def walkStep (gs : List (String × List String)) (pf : String × DiskFile) :
    List (String × List String) :=
  match computeMetrics pf.2 with
  | Except.ok m => addToGroups gs (keyForMetrics m) pf.1
  | Except.error _ => gs

/-- The grouping phase of `main` over the walked files. -/
def buildGroups (files : List (String × DiskFile)) : List (String × List String) :=
  files.foldl walkStep []

/-- Observable effects of the pruning pass: which paths `os.Remove` was
called on, which calls succeeded, and the running `removed` counter. -/
structure PruneAcc where
  attempted : List String
  deleted : List String
  removed : Nat
  deriving DecidableEq, Repr

/-- One iteration of `for _, dup := range files[1:]`: `os.Remove(dup)` (its
success decided by the `removeOk` oracle), incrementing `removed` only on
success. -/
def pruneStep (removeOk : String → Bool) (a : PruneAcc) (dup : String) : PruneAcc :=
  if removeOk dup then
    { attempted := a.attempted ++ [dup], deleted := a.deleted ++ [dup],
      removed := a.removed + 1 }
  else
    { attempted := a.attempted ++ [dup], deleted := a.deleted,
      removed := a.removed }

/-- One group of the pruning pass: groups of more than one path have every
path after the first handed to `os.Remove`. -/
def pruneGroupStep (removeOk : String → Bool) (a : PruneAcc)
    (kf : String × List String) : PruneAcc :=
  if 1 < kf.2.length then (kf.2.drop 1).foldl (pruneStep removeOk) a else a

/-- The pruning pass of `main`. -/
def pruneGroups (removeOk : String → Bool) (gs : List (String × List String)) :
    PruneAcc :=
  gs.foldl (pruneGroupStep removeOk) { attempted := [], deleted := [], removed := 0 }

/-! ### Facts about the grouping fold -/

theorem groupAt_foldl_mono (files : List (String × DiskFile)) :
    ∀ (gs : List (String × List String)) (k q : String),
      q ∈ groupAt gs k → q ∈ groupAt (files.foldl walkStep gs) k := by
  induction files with
  | nil => intro gs k q h; exact h
  | cons pf rest ih =>
    intro gs k q h
    simp only [List.foldl_cons]
    refine ih _ k q ?_
    unfold walkStep
    cases computeMetrics pf.2 with
    | ok m => exact groupAt_addToGroups_mono gs (keyForMetrics m) pf.1 k q h
    | error e => exact h

theorem mem_groupAt_foldl (files : List (String × DiskFile)) :
    ∀ (gs : List (String × List String)) (p : String) (f : DiskFile)
      (m : FileMetrics), (p, f) ∈ files → computeMetrics f = Except.ok m →
      p ∈ groupAt (files.foldl walkStep gs) (keyForMetrics m) := by
  induction files with
  | nil => intro gs p f m h; cases h
  | cons pf rest ih =>
    intro gs p f m hmem hok
    simp only [List.foldl_cons]
    rcases List.mem_cons.mp hmem with h | h
    · subst h
      refine groupAt_foldl_mono rest _ _ _ ?_
      unfold walkStep
      simp only [hok]
      exact groupAt_addToGroups_self gs (keyForMetrics m) p
    · exact ih _ p f m h hok

theorem not_mem_groupAt_foldl (files : List (String × DiskFile)) :
    ∀ (gs : List (String × List String)) (p k : String),
      p ∉ files.map Prod.fst → p ∉ groupAt gs k →
      p ∉ groupAt (files.foldl walkStep gs) k := by
  induction files with
  | nil => intro gs p k _ h; exact h
  | cons pf rest ih =>
    intro gs p k hfst h
    simp only [List.map_cons, List.mem_cons] at hfst
    push_neg at hfst
    simp only [List.foldl_cons]
    refine ih _ p k hfst.2 ?_
    unfold walkStep
    cases computeMetrics pf.2 with
    | ok m =>
      intro hin
      rcases groupAt_addToGroups_cases gs (keyForMetrics m) pf.1 k p hin with hh | hh
      · exact h hh
      · exact hfst.1 hh
    | error e => exact h

/-- A file whose metrics computation fails is in no group, provided the
walk visits each path once. -/
theorem errorFile_not_grouped (files : List (String × DiskFile)) :
    ∀ (gs : List (String × List String)) (p : String) (f : DiskFile)
      (e : IOErr) (k : String), (files.map Prod.fst).Nodup →
      (p, f) ∈ files → computeMetrics f = Except.error e →
      p ∉ groupAt gs k → p ∉ groupAt (files.foldl walkStep gs) k := by
  induction files with
  | nil => intro gs p f e k _ hmem; cases hmem
  | cons pf rest ih =>
    intro gs p f e k hnd hmem herr hgs
    simp only [List.map_cons, List.nodup_cons] at hnd
    simp only [List.foldl_cons]
    rcases List.mem_cons.mp hmem with h | h
    · subst h
      refine not_mem_groupAt_foldl rest _ p k hnd.1 ?_
      unfold walkStep
      simp only [herr]
      exact hgs
    · have hpf : pf.1 ≠ p := by
        intro hq
        exact hnd.1 (hq ▸ (List.mem_map.mpr ⟨(p, f), h, rfl⟩))
      refine ih _ p f e k hnd.2 h herr ?_
      unfold walkStep
      cases computeMetrics pf.2 with
      | ok m =>
        intro hin
        rcases groupAt_addToGroups_cases gs (keyForMetrics m) pf.1 k p hin with hh | hh
        · exact hgs hh
        · exact hpf hh.symm
      | error e' => exact hgs

/-! ### Facts about the pruning fold -/

theorem foldl_pruneStep (rm : String → Bool) (l : List String) :
    ∀ a : PruneAcc,
      l.foldl (pruneStep rm) a =
        { attempted := a.attempted ++ l, deleted := a.deleted ++ l.filter rm,
          removed := a.removed + (l.filter rm).length } := by
  induction l with
  | nil => intro a; simp
  | cons x xs ih =>
    intro a
    simp only [List.foldl_cons]
    rw [ih]
    by_cases hx : rm x
    · simp [pruneStep, hx, List.filter_cons, List.append_assoc]
      omega
    · simp [pruneStep, hx, List.filter_cons, List.append_assoc]

/-- The paths a run of the pruning pass hands to `os.Remove`: every path
after the first of every group of more than one path. -/
def dupsOf (gs : List (String × List String)) : List String :=
  (gs.filter (fun kf => decide (1 < kf.2.length))).flatMap (fun kf => kf.2.drop 1)

theorem pruneGroups_foldl (rm : String → Bool) (gs : List (String × List String)) :
    ∀ a : PruneAcc,
      gs.foldl (pruneGroupStep rm) a =
        { attempted := a.attempted ++ dupsOf gs,
          deleted := a.deleted ++ (dupsOf gs).filter rm,
          removed := a.removed + ((dupsOf gs).filter rm).length } := by
  induction gs with
  | nil => intro a; simp [dupsOf]
  | cons kf rest ih =>
    intro a
    simp only [List.foldl_cons]
    rw [ih]
    by_cases hlen : 1 < kf.2.length
    · simp only [pruneGroupStep, if_pos hlen, foldl_pruneStep]
      have hd : dupsOf (kf :: rest) = kf.2.drop 1 ++ dupsOf rest := by
        simp [dupsOf, List.filter_cons_of_pos, hlen]
      rw [hd]
      simp [List.filter_append, List.append_assoc]
      omega
    · simp only [pruneGroupStep, if_neg hlen]
      have hd : dupsOf (kf :: rest) = dupsOf rest := by
        simp [dupsOf, List.filter_cons_of_neg, hlen]
      rw [hd]

theorem pruneGroups_spec (rm : String → Bool) (gs : List (String × List String)) :
    pruneGroups rm gs =
      { attempted := dupsOf gs, deleted := (dupsOf gs).filter rm,
        removed := ((dupsOf gs).filter rm).length } := by
  unfold pruneGroups
  rw [pruneGroups_foldl]
  simp

/-- The key builder reads nothing but the thirteen fingerprint fields. -/
theorem keyForMetrics_congr (m1 m2 : FileMetrics)
    (h : keyFields m1 = keyFields m2) : keyForMetrics m1 = keyForMetrics m2 := by
  simp only [keyFields, Prod.mk.injEq] at h
  obtain ⟨e1, e2, e3, e4, e5, e6, e7, e8, e9, e10, e11, e12, e13⟩ := h
  simp [keyForMetrics, e1, e2, e3, e4, e5, e6, e7, e8, e9, e10, e11, e12, e13]

/-! ## The claims -/

/-- C1: for every pair of walked files whose extracted Metrics tuples agree
field-for-field on the thirteen fingerprint fields (status, word count,
content type, redirect location, header count, redirect domain,
redirect-parameter count, title length, title words, CSS count, JS count,
tag count, interesting flag), the computed fingerprint key is the same
string and both paths are placed in the same group, regardless of the
files' paths or names: the key is a function of those fields only. -/
theorem claim1_equal_metrics_same_group
    (files : List (String × DiskFile)) (p1 p2 : String) (f1 f2 : DiskFile)
    (m1 m2 : FileMetrics)
    (h1 : (p1, f1) ∈ files) (h2 : (p2, f2) ∈ files)
    (hm1 : computeMetrics f1 = Except.ok m1)
    (hm2 : computeMetrics f2 = Except.ok m2)
    (heq : keyFields m1 = keyFields m2) :
    keyForMetrics m1 = keyForMetrics m2 ∧
    p1 ∈ groupAt (buildGroups files) (keyForMetrics m1) ∧
    p2 ∈ groupAt (buildGroups files) (keyForMetrics m1) := by
  have hkey := keyForMetrics_congr m1 m2 heq
  refine ⟨hkey, ?_, ?_⟩
  · exact mem_groupAt_foldl files [] p1 f1 m1 h1 hm1
  · rw [hkey]
    exact mem_groupAt_foldl files [] p2 f2 m2 h2 hm2

/-- The metrics of a two-byte file that holds no response boundary. -/
def mShort : FileMetrics :=
  { emptyMetrics with
    CountHeaders := "0"
    CountRedirectParameters := "0"
    LengthTitle := "0"
    WordsTitle := "0"
    CountCssFiles := "0"
    CountJsFiles := "0"
    CountTags := "0" }

/-- Two distinct short files with identical metrics. -/
def fShortA : DiskFile := ⟨false, "ab".data⟩

def fShortB : DiskFile := ⟨false, "cd".data⟩

theorem claim1_witness :
    keyForMetrics mShort = keyForMetrics mShort ∧
    "dir1/x" ∈ groupAt (buildGroups [("dir1/x", fShortA), ("dir2/y", fShortB)])
      (keyForMetrics mShort) ∧
    "dir2/y" ∈ groupAt (buildGroups [("dir1/x", fShortA), ("dir2/y", fShortB)])
      (keyForMetrics mShort) :=
  claim1_equal_metrics_same_group [("dir1/x", fShortA), ("dir2/y", fShortB)]
    "dir1/x" "dir2/y" fShortA fShortB mShort mShort
    (by simp) (by simp) rfl rfl rfl

/-- Two transcripts that collide on the fingerprint key although their
metrics differ: the `'-'` separator is not escaped, so the adjacent fields
`ContentType = "a-b", Location = "c"` and `ContentType = "a",
Location = "b-c"` concatenate to the same key. -/
def fCollideA : DiskFile :=
  ⟨false, "\n<r\nContent-Type: a-b\nLocation: c\n\nbody".data⟩

def fCollideB : DiskFile :=
  ⟨false, "\n<r\nContent-Type: a\nLocation: b-c\n\nbody".data⟩

def mCollideA : FileMetrics :=
  { emptyMetrics with
    ContentType := "a-b"
    RedirectLocation := "c"
    CountHeaders := "2"
    CountRedirectParameters := "0"
    LengthTitle := "0"
    WordsTitle := "0"
    CountCssFiles := "0"
    CountJsFiles := "0"
    CountTags := "0" }

def mCollideB : FileMetrics :=
  { emptyMetrics with
    ContentType := "a"
    RedirectLocation := "b-c"
    CountHeaders := "2"
    CountRedirectParameters := "0"
    LengthTitle := "0"
    WordsTitle := "0"
    CountCssFiles := "0"
    CountJsFiles := "0"
    CountTags := "0" }

/-- C2 counterexample: two files whose extracted Metrics differ in their
content type (and redirect location) yet produce the identical fingerprint
key `"-0-a-b-c-2--0-0-0-0-0-0-false"`, so they are placed in the same
group, not different ones: the key builder is not injective on the fields
it consumes. -/
theorem claim2_counterexample :
    computeMetrics fCollideA = Except.ok mCollideA ∧
    computeMetrics fCollideB = Except.ok mCollideB ∧
    mCollideA.ContentType ≠ mCollideB.ContentType ∧
    mCollideA.RedirectLocation ≠ mCollideB.RedirectLocation ∧
    keyForMetrics mCollideA = keyForMetrics mCollideB ∧
    "dir/x" ∈ groupAt (buildGroups [("dir/x", fCollideA), ("dir/y", fCollideB)])
      (keyForMetrics mCollideA) ∧
    "dir/y" ∈ groupAt (buildGroups [("dir/x", fCollideA), ("dir/y", fCollideB)])
      (keyForMetrics mCollideA) := by
  refine ⟨rfl, rfl, by decide, by decide, by decide, ?_, ?_⟩ <;> decide

/-- C2 (amended): the key builder is injective on the thirteen-field
Metrics subset provided no string-typed field contains the `'-'` separator
character; Metrics differing in at least one field then receive distinct
keys. -/
theorem claim2_key_injective_dashfree (m1 m2 : FileMetrics)
    (h1 : dashFreeKeyFields m1 = true) (h2 : dashFreeKeyFields m2 = true)
    (hne : keyFields m1 ≠ keyFields m2) :
    keyForMetrics m1 ≠ keyForMetrics m2 := by
  intro hk
  exact hne (keyForMetrics_injOn m1 m2 h1 h2 hk)

theorem claim2_witness :
    keyForMetrics { emptyMetrics with Status := "200" } ≠
      keyForMetrics { emptyMetrics with Status := "404" } :=
  claim2_key_injective_dashfree _ _ (by decide) (by decide)
    (fun h => absurd (congrArg (fun t => t.1) h) (by decide))

/-- C3: for every group of N > 1 paths whose deletions all succeed, the
pruning pass deletes exactly the N−1 paths after the first and the
first-visited path survives undeleted. -/
theorem claim3_prune_keeps_first (rm : String → Bool) (k : String)
    (files : List String) (hlen : 1 < files.length)
    (hall : ∀ p ∈ files.drop 1, rm p = true) (hnd : files.Nodup) :
    (pruneGroups rm [(k, files)]).deleted = files.drop 1 ∧
    (pruneGroups rm [(k, files)]).removed = files.length - 1 ∧
    ∀ h0 ∈ files.head?, h0 ∉ (pruneGroups rm [(k, files)]).deleted := by
  have hdups : dupsOf [(k, files)] = files.drop 1 := by
    simp [dupsOf, List.filter_cons, hlen]
  have hfilter : (files.drop 1).filter rm = files.drop 1 :=
    List.filter_eq_self.mpr hall
  rw [pruneGroups_spec, hdups, hfilter]
  refine ⟨rfl, by simp, ?_⟩
  intro h0 hh0
  cases files with
  | nil => cases hh0
  | cons x xs =>
    simp only [List.head?_cons, Option.mem_def, Option.some.injEq] at hh0
    subst hh0
    simpa using (List.nodup_cons.mp hnd).1

theorem claim3_witness :
    (pruneGroups (fun _ => true) [("key", ["a", "b", "c"])]).deleted =
      ["a", "b", "c"].drop 1 ∧
    (pruneGroups (fun _ => true) [("key", ["a", "b", "c"])]).removed =
      (["a", "b", "c"] : List String).length - 1 ∧
    ∀ h0 ∈ (["a", "b", "c"] : List String).head?,
      h0 ∉ (pruneGroups (fun _ => true) [("key", ["a", "b", "c"])]).deleted :=
  claim3_prune_keeps_first _ "key" _ (by decide) (by decide) (by decide)

/-- C9: a failed deletion stops neither the deletion attempts on the
group's remaining members (the attempted sequence is the same as with an
always-succeeding `os.Remove`) nor the accounting: only successful
deletions are counted, so the reported total is exactly the number of
successful deletions. -/
theorem claim9_failed_deletions_skipped (rm : String → Bool)
    (gs : List (String × List String)) :
    (pruneGroups rm gs).attempted = (pruneGroups (fun _ => true) gs).attempted ∧
    (pruneGroups rm gs).deleted = ((pruneGroups rm gs).attempted).filter rm ∧
    (pruneGroups rm gs).removed = ((pruneGroups rm gs).deleted).length := by
  rw [pruneGroups_spec, pruneGroups_spec]
  exact ⟨rfl, rfl, rfl⟩

/-- C8: a file whose open or read fails during the walk appears in no
group — it is neither a retained representative nor a deleted duplicate —
while the walk continues: every other file with successful metrics still
lands in its group. -/
theorem claim8_error_file_excluded (files : List (String × DiskFile))
    (p : String) (f : DiskFile) (e : IOErr)
    (hnd : (files.map Prod.fst).Nodup) (hmem : (p, f) ∈ files)
    (herr : computeMetrics f = Except.error e) :
    (∀ k, p ∉ groupAt (buildGroups files) k) ∧
    (∀ (q : String) (g : DiskFile) (m : FileMetrics), (q, g) ∈ files →
      computeMetrics g = Except.ok m →
      q ∈ groupAt (buildGroups files) (keyForMetrics m)) := by
  constructor
  · intro k
    exact errorFile_not_grouped files [] p f e k hnd hmem herr (by simp [groupAt])
  · intro q g m hq hok
    exact mem_groupAt_foldl files [] q g m hq hok

/-- A zero-byte file (and its failing read). -/
def fEmpty : DiskFile := ⟨false, []⟩

theorem claim8_witness :
    (∀ k, "bad" ∉ groupAt (buildGroups [("bad", fEmpty), ("good", fShortA)]) k) ∧
    (∀ (q : String) (g : DiskFile) (m : FileMetrics),
      (q, g) ∈ [("bad", fEmpty), ("good", fShortA)] →
      computeMetrics g = Except.ok m →
      q ∈ groupAt (buildGroups [("bad", fEmpty), ("good", fShortA)])
        (keyForMetrics m)) :=
  claim8_error_file_excluded [("bad", fEmpty), ("good", fShortA)]
    "bad" fEmpty IOErr.eof (by decide) (by simp) rfl

/-- C10: a zero-byte file is always treated as a read error — the full
read reports `io.EOF`, which is not the tolerated short-read condition —
so every empty file is excluded from all grouping: never fingerprinted,
never grouped, never deleted. -/
theorem claim10_empty_file_excluded (f : DiskFile) (hopen : f.openErr = false)
    (hempty : f.content = []) :
    computeMetrics f = Except.error IOErr.eof ∧
    ∀ (files : List (String × DiskFile)) (p k : String),
      (files.map Prod.fst).Nodup → (p, f) ∈ files →
      p ∉ groupAt (buildGroups files) k := by
  have herr : computeMetrics f = Except.error IOErr.eof := by
    obtain ⟨o, c⟩ := f
    simp only at hopen hempty
    subst hopen
    subst hempty
    rfl
  refine ⟨herr, ?_⟩
  intro files p k hnd hmem
  exact errorFile_not_grouped files [] p f IOErr.eof k hnd hmem herr
    (by simp [groupAt])

theorem claim10_witness :
    computeMetrics fEmpty = Except.error IOErr.eof ∧
    ∀ (files : List (String × DiskFile)) (p k : String),
      (files.map Prod.fst).Nodup → (p, fEmpty) ∈ files →
      p ∉ groupAt (buildGroups files) k :=
  claim10_empty_file_excluded fEmpty rfl rfl

/-- The boundary scan finds nothing when no newline is immediately
followed by `'<'` (and the initial `prev` cannot fire on the first
character either). -/
theorem findStart_eq_none (cs : List Char) :
    ∀ prev : Char, (prev = '\n' → cs.head? ≠ some '<') →
      ('\n', '<') ∉ cs.zip cs.tail → findStart prev cs = none := by
  induction cs with
  | nil => intro prev _ _; rfl
  | cons c rest ih =>
    intro prev hhead hzip
    have hcond : (decide (prev = '\n') && decide (c = '<')) = false := by
      by_cases hp : prev = '\n'
      · have hc : c ≠ '<' := by
          intro hcc
          exact hhead hp (by simp [hcc])
        simp [hp, hc]
      · simp [hp]
    simp only [findStart, hcond, Bool.false_eq_true, if_false]
    apply ih c
    · intro hcn
      cases rest with
      | nil => simp
      | cons r rs =>
        simp only [List.head?_cons, ne_eq, Option.some.injEq]
        intro hr
        apply hzip
        subst hcn
        subst hr
        simp [List.zip_cons_cons]
    · intro hmem
      apply hzip
      cases rest with
      | nil => cases hmem
      | cons r rs =>
        simp only [List.tail_cons, List.zip_cons_cons, List.mem_cons]
        right
        simpa [List.tail_cons] using hmem

/-- C4: when the content has no position where a newline is immediately
followed by `'<'`, the Transcript Splitter returns empty headers and an
empty body (it analyzes an empty region instead of falling back to the
full content). -/
theorem claim4_no_boundary_empty (content : String)
    (h : ('\n', '<') ∉ content.data.zip content.data.tail) :
    SeperateContentIntoHeadersAndBody content = ("", "") := by
  have hfs : findStart (Char.ofNat 0) content.data = none :=
    findStart_eq_none content.data (Char.ofNat 0)
      (fun h0 => absurd h0 (by decide)) h
  unfold SeperateContentIntoHeadersAndBody
  rw [hfs]
  rfl

theorem claim4_witness :
    SeperateContentIntoHeadersAndBody "HTTP/1.1 200 OK. No response tag here" =
      ("", "") :=
  claim4_no_boundary_empty _ (by decide)

/-- The `strings.Replace` model with count 1 leaves a line without any occurrence of
the pattern unchanged. -/
theorem replaceFirst_no_occurrence (pat line : List Char)
    (h : containsSub line pat = false) : replaceFirst pat line = line := by
  induction line with
  | nil => rfl
  | cons c rest ih =>
    simp only [containsSub, Bool.or_eq_false_iff] at h
    simp only [replaceFirst, h.1, Bool.false_eq_true, if_false]
    rw [ih h.2]

/-- C7 (amended): inside the Transcript Splitter, each header line has the
first occurrence of `"< "` anywhere in it removed (`strings.Replace` with
count 1).  Consequently a line beginning with `"< "` has exactly its
leading marker stripped, and a line containing no `"< "` at all is
appended unchanged; but a line that merely does not *begin* with `"< "`
can still be altered, if `"< "` occurs later in it. -/
theorem claim7_header_marker_strip (line rest : List Char) :
    (line = '<' :: ' ' :: rest → stripMarker line = rest) ∧
    (containsSub line ['<', ' '] = false → stripMarker line = line) := by
  constructor
  · intro h
    subst h
    simp [stripMarker, replaceFirst, hasPfx]
  · intro h
    exact replaceFirst_no_occurrence _ _ h

theorem claim7_witness :
    stripMarker ('<' :: ' ' :: "Server: nginx".data) = "Server: nginx".data ∧
    stripMarker ("Accept-Ranges: bytes".data) = "Accept-Ranges: bytes".data :=
  ⟨(claim7_header_marker_strip ('<' :: ' ' :: "Server: nginx".data)
      ("Server: nginx".data)).1 rfl,
   (claim7_header_marker_strip ("Accept-Ranges: bytes".data) []).2 (by decide)⟩

/-- C7 counterexample: in a full splitter run, the header line
`"X-Key: a< b"` does not begin with `"< "`, yet it is not appended
unchanged — its interior `"< "` is removed by `strings.Replace`. -/
theorem claim7_counterexample :
    hasPfx ['<', ' '] ("X-Key: a< b".data) = false ∧
    (SeperateContentIntoHeadersAndBody "\n<r\nX-Key: a< b\n\nbody").1 =
      "<r\nX-Key: ab" ∧
    (SeperateContentIntoHeadersAndBody "\n<r\nX-Key: a< b\n\nbody").1 ≠
      "<r\nX-Key: a< b" := by
  decide

/-- Successful metric extraction always works on the capped buffer
`content[:min(CAP, len)]` and the word scan on what lies beyond it. -/
theorem computeMetrics_ok_eq (f : DiskFile) (m : FileMetrics)
    (h : computeMetrics f = Except.ok m) :
    m = metricsOf (f.content.take CAP) f.content := by
  unfold computeMetrics at h
  by_cases hopen : f.openErr
  · rw [if_pos hopen] at h
    cases h
  · rw [if_neg hopen] at h
    simp only [readCapped] at h
    by_cases hcap : CAP ≤ f.content.length
    · rw [if_pos hcap] at h
      simp only at h
      exact (Except.ok.injEq _ _ ▸ h).symm
    · rw [if_neg hcap] at h
      by_cases hzero : f.content.length = 0
      · rw [if_pos hzero] at h
        simp at h
      · rw [if_neg hzero] at h
        simp only at h
        have ht : f.content.take CAP = f.content :=
          List.take_of_length_le (by omega)
        rw [ht]
        exact (Except.ok.injEq _ _ ▸ h).symm

/-- C5: the word-count metric counts exactly the whitespace-delimited
tokens of the bytes strictly beyond the first 1,000,000 (the capped read);
for a file of at most 1,000,000 bytes it is 0, and the capped buffer never
contributes to it. -/
theorem claim5_words_beyond_cap (f : DiskFile) (m : FileMetrics)
    (h : computeMetrics f = Except.ok m) :
    m.Words = countWords (f.content.drop CAP) ∧
    (f.content.length ≤ CAP → m.Words = 0) := by
  have hm := computeMetrics_ok_eq f m h
  have hwords : m.Words = countWords (f.content.drop (f.content.take CAP).length) := by
    rw [hm]
    rfl
  have hdrop : f.content.drop (f.content.take CAP).length = f.content.drop CAP := by
    rw [List.length_take]
    rcases Nat.le_total CAP f.content.length with hle | hle
    · rw [Nat.min_eq_left hle]
    · rw [Nat.min_eq_right hle, List.drop_eq_nil_of_le (Nat.le_refl _),
        List.drop_eq_nil_of_le hle]
  refine ⟨hwords.trans (by rw [hdrop]), ?_⟩
  intro hlen
  rw [hwords, List.drop_eq_nil_of_le (by rw [List.length_take]; omega)]
  rfl

theorem claim5_witness :
    mShort.Words = countWords (fShortA.content.drop CAP) ∧
    (fShortA.content.length ≤ CAP → mShort.Words = 0) :=
  claim5_words_beyond_cap fShortA mShort rfl

/-- C6 counterexample: a content type containing `"json"` (here
`"jsonhtml"`) whose tag count is not the quoted-key/colon count: the code
checks `"html"`/`"xml"` first, so the angle-bracket count `"1"` is
produced although the colon-pattern count of the body is `"0"`. -/
theorem claim6_counterexample :
    containsSub ("jsonhtml".data) ("json".data) = true ∧
    CountTags "jsonhtml" "<a>" = "1" ∧
    Nat.repr (jsonScan ("<a>".data)) = "0" := by
  decide

/-- C6 (amended): the tag-count dispatch on the content type, with the
`"html"`/`"xml"` test taking precedence: content types containing
`"html"` or `"xml"` get the angle-bracket tag count of the body; content
types containing `"json"` but neither `"html"` nor `"xml"` get the
quoted-key/colon count; content types containing none of the three get
`"0"`. -/
theorem claim6_tag_count_dispatch (ct body : String) :
    ((containsSub ct.data ("html".data) || containsSub ct.data ("xml".data)) = true →
      CountTags ct body = Nat.repr (tagScan false body.data)) ∧
    ((containsSub ct.data ("html".data) || containsSub ct.data ("xml".data)) = false →
      containsSub ct.data ("json".data) = true →
      CountTags ct body = Nat.repr (jsonScan body.data)) ∧
    ((containsSub ct.data ("html".data) || containsSub ct.data ("xml".data)) = false →
      containsSub ct.data ("json".data) = false →
      CountTags ct body = "0") := by
  unfold CountTags
  refine ⟨fun h => ?_, fun h hj => ?_, fun h hj => ?_⟩
  · rw [if_pos h]
  · rw [if_neg (by simp [h]), if_pos hj]
  · rw [if_neg (by simp [h]), if_neg (by simp [hj])]

theorem claim6_witness :
    CountTags "text/html" "<a>b</a>" = Nat.repr (tagScan false ("<a>b</a>".data)) ∧
    CountTags "application/json" "\"a\": 1, \"b\": 2" =
      Nat.repr (jsonScan ("\"a\": 1, \"b\": 2".data)) ∧
    CountTags "text/plain" "<a>" = "0" :=
  ⟨(claim6_tag_count_dispatch "text/html" "<a>b</a>").1 (by decide),
   (claim6_tag_count_dispatch "application/json" "\"a\": 1, \"b\": 2").2.1
     (by decide) (by decide),
   (claim6_tag_count_dispatch "text/plain" "<a>").2.2 (by decide) (by decide)⟩

end Megpost
